import Mathlib

/-!
Verification development for the mask-classification training scripts
(`train/train with cutmix and sam.py` and `train/train.py`).

The embedding models:
* `rand_bbox` — the CutMix bounding-box sampler (full-width horizontal band).
* `closure` — the per-batch loss compositor: CutMix mixing gated by
  `beta > 0 and r < cutmix_prob`, in-place region overwrite, lambda
  recomputation, blended loss.
* `trainBatchSAM` / `batchTrace` — the SAM two-phase step protocol and its
  event trace versus the plain single-step path.
* `checkpointRun` / `epochUpdate` — the per-epoch checkpoint policy (best by
  strict F1 improvement, last always) and the orchestrator best-state.
* `validate` — the validation-epoch aggregation (mean loss, accuracy, mean
  macro-F1, first-batch visualization figure).

Random draws of the Python code (`np.random.rand`, `np.random.beta`,
`torch.randperm`, `np.random.randint`) are modelled as explicit arguments;
floating-point scalars are modelled as rationals, and `np.sqrt` exactly as the
real square root (`cutH` computes the floor of `H * sqrt (1 - lam)` by a
computable integer square root, proved equal to the real-valued formula).
The model and the loss criterion are opaque collaborators, passed as
function arguments.
-/

namespace MaskTrain

/-- Tensor sizes, following the code comment on `rand_bbox`:
`size : [Batch_size, Channel, Width, Height]`, so `W = size[2]`, `H = size[3]`. -/
structure Size where
  N : ℕ
  C : ℕ
  W : ℕ
  H : ℕ

/-- A 4-D batch tensor, indexed as `inputs[n, c, x, y]` with rational pixels. -/
abbrev Batch : Type := ℕ → ℕ → ℕ → ℕ → ℚ

/-- Integer class labels per sample. -/
abbrev Labels : Type := ℕ → ℕ

/-- The bounding box `(bbx1, bby1, bbx2, bby2)` returned by `rand_bbox`. -/
structure BBox where
  x1 : ℕ
  y1 : ℕ
  x2 : ℕ
  y2 : ℕ
deriving DecidableEq, Repr

/-- Integer clipping `np.clip(v, lo, hi)`: `min (max v lo) hi`. -/
def clip (v lo hi : ℤ) : ℤ := min (max v lo) hi

/-- The cut height `np.int(H * np.sqrt(1 - lam))`, computed exactly:
`⌊H * √(1 - lam)⌋ = Nat.sqrt ⌊H² * (1 - lam)⌋` (proved in
`cutH_eq_floor_sqrt` below). -/
def cutH (H : ℕ) (lam : ℚ) : ℕ :=
  Nat.sqrt (Int.toNat ⌊(H : ℚ) ^ 2 * (1 - lam)⌋)

/-- The sampler `rand_bbox(size, lam)` from `train with cutmix and sam.py` (lines 28–45).
`cut_w = np.int(W * cut_rat)` and `cx = np.random.randint(W)` are computed by
the code but never used in the returned box, so the box always spans the full
width: `bbx1 = 0`, `bbx2 = W`.  `cy` is the random draw `np.random.randint(H)`,
passed here as an argument. -/
def rand_bbox (W H : ℕ) (lam : ℚ) (cy : ℕ) : BBox :=
  { x1 := 0
    y1 := (clip ((cy : ℤ) - (cutH H lam / 2 : ℕ)) 0 (H : ℤ)).toNat
    x2 := W
    y2 := (clip ((cy : ℤ) + (cutH H lam / 2 : ℕ)) 0 (H : ℤ)).toNat }

/-- The in-place region overwrite
`inputs[:, :, bbx1:bbx2, bby1:bby2] = inputs[rand_index, :, bbx1:bbx2, bby1:bby2]`:
inside the box every sample takes the pixels of its partner `perm n`,
outside the box pixels are unchanged. -/
def applyCutmix (perm : ℕ → ℕ) (bb : BBox) (inputs : Batch) : Batch :=
  fun n c x y =>
    if bb.x1 ≤ x ∧ x < bb.x2 ∧ bb.y1 ≤ y ∧ y < bb.y2 then
      inputs (perm n) c x y
    else
      inputs n c x y

/-- The recomputation `lam = 1 - ((bbx2 - bbx1) * (bby2 - bby1) / (inputs.size()[-1] * inputs.size()[-2]))`:
one minus box area over total image area (`size[-1] * size[-2] = H * W`). -/
def recomputeLam (W H : ℕ) (bb : BBox) : ℚ :=
  1 - ((((bb.x2 : ℤ) - bb.x1) * ((bb.y2 : ℤ) - bb.y1) : ℤ) : ℚ) / ((H : ℚ) * (W : ℚ))

/-- The random draws consumed by one invocation of the closure when CutMix
triggers: `lam ~ Beta(beta, beta)`, the partner permutation
`torch.randperm(batch_size)`, and the box center `cy = np.random.randint(H)`. -/
structure MixRand where
  lam : ℚ
  perm : ℕ → ℕ
  cy : ℕ

/-- The CutMix gate `args.beta > 0 and r < args.cutmix_prob`. -/
def cutmixTriggered (beta cutmix_prob r : ℚ) : Prop :=
  0 < beta ∧ r < cutmix_prob

instance (beta cutmix_prob r : ℚ) : Decidable (cutmixTriggered beta cutmix_prob r) :=
  inferInstanceAs (Decidable (_ ∧ _))

/-- The per-batch loss closure (lines 165–180).  Returns the loss together
with the batch tensor after the (possibly mutating) invocation; the caller
threads the returned batch to model the in-place mutation of `inputs`. -/
def closure {α : Type} (sz : Size) (beta cutmix_prob r : ℚ) (rnd : MixRand)
    (model : Batch → α) (criterion : α → Labels → ℚ)
    (inputs : Batch) (labels : Labels) : ℚ × Batch :=
  if cutmixTriggered beta cutmix_prob r then
    let target_a : Labels := labels
    let target_b : Labels := fun n => labels (rnd.perm n)
    let bb := rand_bbox sz.W sz.H rnd.lam rnd.cy
    let mixed := applyCutmix rnd.perm bb inputs
    let lam := recomputeLam sz.W sz.H bb
    let outs := model mixed
    (criterion outs target_a * lam + criterion outs target_b * (1 - lam), mixed)
  else
    (criterion (model inputs) labels, inputs)

/-! ### The per-batch step protocol (lines 157–192) -/

/-- Observable events of one per-batch optimization step. -/
inductive TrainEvent
  | zeroGrad
  | closureCall
  | backward
  | firstStep (zero_grad : Bool)
  | secondStep (zero_grad : Bool)
  | baseStep
deriving DecidableEq, Repr

/-- The event trace of one training batch:
`optimizer.zero_grad(); loss = closure(); loss.backward();` then, when the
optimizer `isinstance(optimizer, opt.SAM)`, `first_step(zero_grad=True);
loss = closure(); loss.backward(); second_step(zero_grad=True)`, else a single
`optimizer.step()`. -/
def batchTrace (isSAM : Bool) : List TrainEvent :=
  [TrainEvent.zeroGrad, TrainEvent.closureCall, TrainEvent.backward] ++
    (if isSAM then
      [TrainEvent.firstStep true, TrainEvent.closureCall, TrainEvent.backward,
        TrainEvent.secondStep true]
    else
      [TrainEvent.baseStep])

/-- Data produced by the two closure invocations of a SAM batch step:
the phase-A loss and post-invocation batch tensor, and the phase-B loss and
post-invocation batch tensor. -/
structure SAMBatchResult where
  lossA : ℚ
  afterA : Batch
  lossB : ℚ
  afterB : Batch

/-- Data flow of one SAM batch (lines 163–189): `r = np.random.rand(1)` is
drawn once, before the closure is defined, and shared by both invocations;
each invocation consumes its own fresh mixing randomness (`rnd1`, `rnd2`).
The phase-B invocation receives the batch tensor left by phase A (the
in-place mutation is never undone). -/
def trainBatchSAM {α : Type} (sz : Size) (beta cutmix_prob r : ℚ)
    (rnd1 rnd2 : MixRand) (model : Batch → α) (criterion : α → Labels → ℚ)
    (inputs : Batch) (labels : Labels) : SAMBatchResult :=
  let pA := closure sz beta cutmix_prob r rnd1 model criterion inputs labels
  let pB := closure sz beta cutmix_prob r rnd2 model criterion pA.2 labels
  ⟨pA.1, pA.2, pB.1, pB.2⟩

/-! ### The checkpoint policy and the orchestrator best-state
(lines 148–149 and 238–245 of `train with cutmix and sam.py`;
lines 102–104 and 179–194 of `train.py`) -/

/-- The checkpoint gate `epoch_f1 > best_f1_score` (strict improvement). -/
def savesBest (best_f1 epoch_f1 : ℚ) : Bool :=
  best_f1 < epoch_f1

/-- Which epochs persisted which artifacts over a run. -/
structure CkptLog where
  bestEpochs : List ℕ
  confEpochs : List ℕ
  lastEpochs : List ℕ
  finalBest : ℚ
deriving DecidableEq, Repr

/-- The per-epoch checkpoint policy, folded over the epoch F1 sequence:
if `epoch_f1 > best_f1_score` then save `best.pth`, update the running best
and draw the confusion matrix; save `last.pth` unconditionally. -/
def checkpointRun (best_f1 : ℚ) (epoch : ℕ) : List ℚ → CkptLog
  | [] => ⟨[], [], [], best_f1⟩
  | epoch_f1 :: rest =>
    let sb := savesBest best_f1 epoch_f1
    let next := checkpointRun (if sb then epoch_f1 else best_f1) (epoch + 1) rest
    ⟨(if sb then epoch :: next.bestEpochs else next.bestEpochs),
      (if sb then epoch :: next.confEpochs else next.confEpochs),
      epoch :: next.lastEpochs, next.finalBest⟩

/-- The orchestrator-owned running best state: `best_val_loss = np.inf`
(modelled as `⊤` in `WithTop ℚ`) and `best_f1_score = 0` at initialization. -/
structure BestState where
  best_val_loss : WithTop ℚ
  best_f1 : ℚ
deriving DecidableEq

/-- Initialization `best_val_loss = np.inf; best_f1_score = 0` (lines 148–149). -/
def initBestState : BestState := ⟨⊤, 0⟩

/-- The end-of-epoch best-state update:
`best_val_loss = min(best_val_loss, val_loss)` and, when
`epoch_f1 > best_f1_score`, `best_f1_score = epoch_f1`. -/
def epochUpdate (s : BestState) (val_loss epoch_f1 : ℚ) : BestState :=
  let s1 : BestState := ⟨min s.best_val_loss (val_loss : WithTop ℚ), s.best_f1⟩
  if s1.best_f1 < epoch_f1 then ⟨s1.best_val_loss, epoch_f1⟩ else s1

/-- The best state after a sequence of epochs with metrics
`(val_loss, epoch_f1)`. -/
def runBestState (s : BestState) : List (ℚ × ℚ) → BestState
  | [] => s
  | m :: rest => runBestState (epochUpdate s m.1 m.2) rest

/-- The checkpoint decision as a function of the orchestrator state:
it reads only `best_f1`, never `best_val_loss`. -/
def saveBestDecision (s : BestState) (epoch_f1 : ℚ) : Bool :=
  savesBest s.best_f1 epoch_f1

/-! ### The validation epoch (lines 199–236 of `train with cutmix and sam.py`) -/

/-- One validation batch after the forward pass: the true labels and the
model's output logits (`outs = model(inputs)`), one logit row per sample. -/
structure ValBatch where
  labels : List ℕ
  outs : List (List ℚ)

/-- Helper for `torch.argmax` over the class dimension: index of the first maximal
logit. -/
def argmaxAux : List ℚ → ℕ → ℚ → ℕ → ℕ
  | [], bi, _, _ => bi
  | v :: rest, bi, bv, i =>
    if bv < v then argmaxAux rest i v (i + 1) else argmaxAux rest bi bv (i + 1)

/-- Prediction `preds = torch.argmax(outs, dim=-1)` for one logit row (0 on an empty
row). -/
def argmaxIdx : List ℚ → ℕ
  | [] => 0
  | v :: rest => argmaxAux rest 0 v 1

/-- The match count `(labels == preds).sum().item()`: the number of positions where the
prediction equals the true label. -/
def matchCount (labels preds : List ℕ) : ℕ :=
  (labels.zip preds).countP (fun p => p.1 == p.2)

/-- The accumulators of the validation loop: `val_loss_items`,
`val_acc_items`, the running `epoch_f1` sum, the concatenated `y_true` /
`y_pred` vectors, and the figure (recorded as the index of the batch it was
built from; `None` until the first batch). -/
structure ValAccum where
  lossItems : List ℚ
  accItems : List ℕ
  f1Sum : ℚ
  yTrue : List ℕ
  yPred : List ℕ
  figure : Option ℕ
deriving DecidableEq, Repr

/-- The body of the validation loop for one batch at position `idx`, with the
macro-F1 collaborator `f1M` (called as `f1_score(labels, preds)`) and the
loss collaborator `criterion(outs, labels)`. -/
def valStep (criterion : List (List ℚ) → List ℕ → ℚ)
    (f1M : List ℕ → List ℕ → ℚ) (acc : ValAccum) (idx : ℕ) (b : ValBatch) :
    ValAccum :=
  let preds := b.outs.map argmaxIdx
  { lossItems := acc.lossItems ++ [criterion b.outs b.labels]
    accItems := acc.accItems ++ [matchCount b.labels preds]
    f1Sum := acc.f1Sum + f1M b.labels preds
    yTrue := acc.yTrue ++ b.labels
    yPred := acc.yPred ++ preds
    figure := match acc.figure with
      | none => some idx
      | some i => some i }

/-- The validation loop over the batch sequence. -/
def valLoop (criterion : List (List ℚ) → List ℕ → ℚ)
    (f1M : List ℕ → List ℕ → ℚ) : ValAccum → ℕ → List ValBatch → ValAccum
  | acc, _, [] => acc
  | acc, i, b :: rest => valLoop criterion f1M (valStep criterion f1M acc i b) (i + 1) rest

/-- The epoch-level validation aggregates. -/
structure ValResult where
  val_loss : ℚ
  val_acc : ℚ
  epoch_f1 : ℚ
  figure : Option ℕ
deriving DecidableEq, Repr

/-- The validation epoch: `val_loss = np.sum(val_loss_items) / len(val_loader)`,
`val_acc = np.sum(val_acc_items) / len(val_set)`,
`epoch_f1 /= len(val_loader)`, and the figure built on the first batch only. -/
def validate (criterion : List (List ℚ) → List ℕ → ℚ)
    (f1M : List ℕ → List ℕ → ℚ) (batches : List ValBatch) (valSetSize : ℕ) :
    ValResult :=
  let acc := valLoop criterion f1M ⟨[], [], 0, [], [], none⟩ 0 batches
  { val_loss := acc.lossItems.sum / (batches.length : ℚ)
    val_acc := (acc.accItems.sum : ℚ) / (valSetSize : ℚ)
    epoch_f1 := acc.f1Sum / (batches.length : ℚ)
    figure := acc.figure }

/-! ### Helper lemmas -/

/-- The natural floor of a real square root equals the natural square root of
the natural floor. -/
lemma natFloor_sqrt_eq (r : ℝ) (hr : 0 ≤ r) :
    ⌊Real.sqrt r⌋₊ = Nat.sqrt ⌊r⌋₊ := by
  rw [Nat.floor_eq_iff (Real.sqrt_nonneg r)]
  refine ⟨?_, ?_⟩
  · calc (Nat.sqrt ⌊r⌋₊ : ℝ) ≤ Real.sqrt (⌊r⌋₊ : ℝ) := Real.nat_sqrt_le_real_sqrt
      _ ≤ Real.sqrt r := Real.sqrt_le_sqrt (Nat.floor_le hr)
  · have h2 : r < (⌊r⌋₊ : ℝ) + 1 := Nat.lt_floor_add_one r
    have h3 : (⌊r⌋₊ : ℕ) < (Nat.sqrt ⌊r⌋₊ + 1) ^ 2 := by
      have := Nat.lt_succ_sqrt' ⌊r⌋₊
      simpa [pow_two, Nat.succ_eq_add_one] using this
    have h4 : ((⌊r⌋₊ : ℕ) : ℝ) + 1 ≤ ((Nat.sqrt ⌊r⌋₊ + 1 : ℕ) : ℝ) ^ 2 := by
      exact_mod_cast h3
    have h5 : r < ((Nat.sqrt ⌊r⌋₊ : ℝ) + 1) ^ 2 := by push_cast at h4; linarith
    exact (Real.sqrt_lt' (by positivity)).2 h5

/-- The definition `cutH` computes exactly `⌊H * √(1 - lam)⌋`. -/
lemma cutH_eq_floor_sqrt (H : ℕ) (lam : ℚ) (h1 : lam ≤ 1) :
    (cutH H lam : ℤ) = ⌊(H : ℝ) * Real.sqrt (1 - (lam : ℝ))⌋ := by
  have hq : (0 : ℚ) ≤ (H : ℚ) ^ 2 * (1 - lam) :=
    mul_nonneg (sq_nonneg _) (by linarith)
  have hr : (0 : ℝ) ≤ (((H : ℚ) ^ 2 * (1 - lam) : ℚ) : ℝ) := by exact_mod_cast hq
  have hsq : (H : ℝ) * Real.sqrt (1 - (lam : ℝ))
      = Real.sqrt (((H : ℚ) ^ 2 * (1 - lam) : ℚ) : ℝ) := by
    rw [show (((H : ℚ) ^ 2 * (1 - lam) : ℚ) : ℝ) = (H : ℝ) ^ 2 * (1 - (lam : ℝ)) by
      push_cast; ring]
    rw [Real.sqrt_mul (by positivity), Real.sqrt_sq (by positivity)]
  rw [hsq]
  have h2 : ⌊Real.sqrt (((H : ℚ) ^ 2 * (1 - lam) : ℚ) : ℝ)⌋
      = ((⌊Real.sqrt (((H : ℚ) ^ 2 * (1 - lam) : ℚ) : ℝ)⌋₊ : ℕ) : ℤ) := by
    rw [← Int.floor_toNat, Int.toNat_of_nonneg (Int.floor_nonneg.2 (Real.sqrt_nonneg _))]
  rw [h2, natFloor_sqrt_eq _ hr]
  have h3 : ⌊(((H : ℚ) ^ 2 * (1 - lam) : ℚ) : ℝ)⌋₊
      = Int.toNat ⌊((H : ℚ) ^ 2 * (1 - lam) : ℚ)⌋ := by
    rw [← Int.floor_toNat, Rat.floor_cast]
  rw [h3]
  rfl

lemma rand_bbox_y1_le_y2 (W H : ℕ) (lam : ℚ) (cy : ℕ) :
    (rand_bbox W H lam cy).y1 ≤ (rand_bbox W H lam cy).y2 := by
  have hc : (0 : ℤ) ≤ ((cutH H lam / 2 : ℕ) : ℤ) := Int.natCast_nonneg _
  have h : clip ((cy : ℤ) - (cutH H lam / 2 : ℕ)) 0 (H : ℤ)
      ≤ clip ((cy : ℤ) + (cutH H lam / 2 : ℕ)) 0 (H : ℤ) := by
    unfold clip
    exact min_le_min (max_le_max (by linarith) (le_refl 0)) (le_refl _)
  exact Int.toNat_le_toNat h

lemma rand_bbox_y2_le (W H : ℕ) (lam : ℚ) (cy : ℕ) :
    (rand_bbox W H lam cy).y2 ≤ H := by
  simp only [rand_bbox, clip]
  exact Int.toNat_le.mpr (min_le_right _ _)

/-! ### Claim theorems -/

/-- C4: for every spatial size `W, H > 0` and every `lam ∈ [0,1]`, the box
returned by `rand_bbox` satisfies `x1 = 0`, `x2 = W` and `0 ≤ y1 ≤ y2 ≤ H`
(so slicing with it is in bounds); only the second spatial dimension is cut,
with cut height `⌊H * √(1 - lam)⌋` and the band clipped to `[0, H]`; when
`lam = 1` the cut height is `0` and the box has zero height. -/
theorem rand_bbox_spec (W H : ℕ) (lam : ℚ) (cy : ℕ)
    (_hW : 0 < W) (_hH : 0 < H) (_h0 : 0 ≤ lam) (h1 : lam ≤ 1) (_hcy : cy < H) :
    (rand_bbox W H lam cy).x1 = 0 ∧
    (rand_bbox W H lam cy).x2 = W ∧
    (rand_bbox W H lam cy).y1 ≤ (rand_bbox W H lam cy).y2 ∧
    (rand_bbox W H lam cy).y2 ≤ H ∧
    (cutH H lam : ℤ) = ⌊(H : ℝ) * Real.sqrt (1 - (lam : ℝ))⌋ ∧
    (lam = 1 → cutH H lam = 0 ∧ (rand_bbox W H lam cy).y1 = (rand_bbox W H lam cy).y2) :=
  by
  refine ⟨rfl, rfl, rand_bbox_y1_le_y2 W H lam cy, rand_bbox_y2_le W H lam cy,
    cutH_eq_floor_sqrt H lam h1, ?_⟩
  intro hlam
  have hc : cutH H 1 = 0 := by
    simp [cutH]
  subst hlam
  exact ⟨hc, by simp [rand_bbox, hc]⟩

/-- C4 witness: the theorem applied at `W = 3`, `H = 4`, `lam = 0`,
`cy = 2`. -/
theorem rand_bbox_spec_witness :
    (0 < 3 ∧ 0 < 4 ∧ (0 : ℚ) ≤ 0 ∧ (0 : ℚ) ≤ 1 ∧ 2 < 4) ∧
    ((rand_bbox 3 4 0 2).x1 = 0 ∧
      (rand_bbox 3 4 0 2).x2 = 3 ∧
      (rand_bbox 3 4 0 2).y1 ≤ (rand_bbox 3 4 0 2).y2 ∧
      (rand_bbox 3 4 0 2).y2 ≤ 4 ∧
      (cutH 4 0 : ℤ) = ⌊(4 : ℝ) * Real.sqrt (1 - ((0 : ℚ) : ℝ))⌋ ∧
      ((0 : ℚ) = 1 → cutH 4 0 = 0 ∧
        (rand_bbox 3 4 0 2).y1 = (rand_bbox 3 4 0 2).y2)) :=
  ⟨⟨by decide, by decide, by decide, by decide, by decide⟩,
    rand_bbox_spec 3 4 0 2 (by decide) (by decide) (by decide) (by decide)
      (by decide)⟩

/-- C5: for every box returned by `rand_bbox`, the recomputed mixing ratio
`lam = 1 - ((x2 - x1) * (y2 - y1)) / (W * H)` lies in `[0, 1]`; when the
clipped box has zero area, `lam = 1`, so the blended loss
`criterion(output, target_a) * lam + criterion(output, target_b) * (1 - lam)`
equals the `target_a`-only term. -/
theorem recomputeLam_spec (W H : ℕ) (lam0 : ℚ) (cy : ℕ)
    (hW : 0 < W) (hH : 0 < H) :
    0 ≤ recomputeLam W H (rand_bbox W H lam0 cy) ∧
    recomputeLam W H (rand_bbox W H lam0 cy) ≤ 1 ∧
    ((((rand_bbox W H lam0 cy).x2 : ℤ) - (rand_bbox W H lam0 cy).x1) *
        (((rand_bbox W H lam0 cy).y2 : ℤ) - (rand_bbox W H lam0 cy).y1) = 0 →
      recomputeLam W H (rand_bbox W H lam0 cy) = 1 ∧
      ∀ ca cb : ℚ, ca * recomputeLam W H (rand_bbox W H lam0 cy)
          + cb * (1 - recomputeLam W H (rand_bbox W H lam0 cy)) = ca) := by
  have hx1 : (rand_bbox W H lam0 cy).x1 = 0 := rfl
  have hx2 : (rand_bbox W H lam0 cy).x2 = W := rfl
  have hy12 := rand_bbox_y1_le_y2 W H lam0 cy
  have hy2 := rand_bbox_y2_le W H lam0 cy
  set bb := rand_bbox W H lam0 cy with hbb
  have hWq : (0 : ℚ) < W := by exact_mod_cast hW
  have hHq : (0 : ℚ) < H := by exact_mod_cast hH
  have hden : (0 : ℚ) < (H : ℚ) * W := mul_pos hHq hWq
  have hyq : (bb.y1 : ℚ) ≤ bb.y2 := by exact_mod_cast hy12
  have hy2q : (bb.y2 : ℚ) ≤ H := by exact_mod_cast hy2
  have hy1q : (0 : ℚ) ≤ bb.y1 := Nat.cast_nonneg _
  have harea : recomputeLam W H bb
      = 1 - ((W : ℚ) * ((bb.y2 : ℚ) - bb.y1)) / ((H : ℚ) * W) := by
    simp only [recomputeLam, hx1, hx2]
    push_cast
    ring_nf
  have hband : (bb.y2 : ℚ) - bb.y1 ≤ H := by linarith
  have hnum : (W : ℚ) * ((bb.y2 : ℚ) - bb.y1) ≤ (H : ℚ) * W := by
    calc (W : ℚ) * ((bb.y2 : ℚ) - bb.y1) ≤ (W : ℚ) * H :=
          mul_le_mul_of_nonneg_left hband hWq.le
      _ = (H : ℚ) * W := by ring
  have hfrac0 : 0 ≤ ((W : ℚ) * ((bb.y2 : ℚ) - bb.y1)) / ((H : ℚ) * W) :=
    div_nonneg (mul_nonneg hWq.le (by linarith)) hden.le
  have hfrac1 : ((W : ℚ) * ((bb.y2 : ℚ) - bb.y1)) / ((H : ℚ) * W) ≤ 1 :=
    (div_le_one hden).mpr hnum
  refine ⟨by rw [harea]; linarith, by rw [harea]; linarith, ?_⟩
  intro hzero
  have hlam1 : recomputeLam W H bb = 1 := by
    simp only [recomputeLam, hzero]
    simp
  exact ⟨hlam1, fun ca cb => by rw [hlam1]; ring⟩

/-- C5 witness: the theorem applied at `W = 2`, `H = 2`, `lam0 = 1`,
`cy = 1` (where the sampled box degenerates to zero height). -/
theorem recomputeLam_spec_witness :
    (0 < 2 ∧ 0 < 2) ∧
    (0 ≤ recomputeLam 2 2 (rand_bbox 2 2 1 1) ∧
      recomputeLam 2 2 (rand_bbox 2 2 1 1) ≤ 1 ∧
      ((((rand_bbox 2 2 1 1).x2 : ℤ) - (rand_bbox 2 2 1 1).x1) *
          (((rand_bbox 2 2 1 1).y2 : ℤ) - (rand_bbox 2 2 1 1).y1) = 0 →
        recomputeLam 2 2 (rand_bbox 2 2 1 1) = 1 ∧
        ∀ ca cb : ℚ, ca * recomputeLam 2 2 (rand_bbox 2 2 1 1)
            + cb * (1 - recomputeLam 2 2 (rand_bbox 2 2 1 1)) = ca)) :=
  ⟨⟨by decide, by decide⟩, recomputeLam_spec 2 2 1 1 (by decide) (by decide)⟩

/-! ### Concrete fixtures used by witnesses -/

/-- A concrete model collaborator: reads one pixel of the batch. -/
def testModel : Batch → ℚ := fun b => b 0 0 0 0

/-- A concrete criterion collaborator. -/
def testCriterion : ℚ → Labels → ℚ := fun o l => o + (l 0 : ℚ)

/-- A concrete batch tensor. -/
def testBatch : Batch := fun n c x y => (n : ℚ) + c + x + y

/-- Concrete labels. -/
def testLabels : Labels := fun n => n

/-- Concrete mixing randomness for one closure invocation. -/
def testRnd : MixRand := ⟨0, fun n => n + 1, 0⟩

/-- Concrete mixing randomness for a second closure invocation. -/
def testRndB : MixRand := ⟨1, id, 1⟩

/-- A concrete tensor size `[N, C, W, H] = [2, 1, 2, 2]`. -/
def testSize : Size := ⟨2, 1, 2, 2⟩

/-- C1: when CutMix triggers (`beta > 0` and `r < cutmix_prob`), the
compositor overwrites in place, for every sample, the pixel region given by
the sampled box with the same region from the sample at the permuted index,
leaves pixels outside the box unchanged, recomputes `lam` as one minus box
area over total area, and returns
`criterion(output, original_labels) * lam + criterion(output, partner_labels) * (1 - lam)`
for the single forward pass on the mixed batch; otherwise it returns
`criterion(output, labels)` on the unmodified batch. -/
theorem cutmix_closure_spec {α : Type} (sz : Size) (beta cutmix_prob r : ℚ)
    (rnd : MixRand) (model : Batch → α) (criterion : α → Labels → ℚ)
    (inputs : Batch) (labels : Labels) :
    (cutmixTriggered beta cutmix_prob r →
      (closure sz beta cutmix_prob r rnd model criterion inputs labels).2
          = applyCutmix rnd.perm (rand_bbox sz.W sz.H rnd.lam rnd.cy) inputs ∧
      (∀ n c x y : ℕ,
          (rand_bbox sz.W sz.H rnd.lam rnd.cy).x1 ≤ x →
          x < (rand_bbox sz.W sz.H rnd.lam rnd.cy).x2 →
          (rand_bbox sz.W sz.H rnd.lam rnd.cy).y1 ≤ y →
          y < (rand_bbox sz.W sz.H rnd.lam rnd.cy).y2 →
          (closure sz beta cutmix_prob r rnd model criterion inputs labels).2 n c x y
            = inputs (rnd.perm n) c x y) ∧
      (∀ n c x y : ℕ,
          ¬((rand_bbox sz.W sz.H rnd.lam rnd.cy).x1 ≤ x ∧
            x < (rand_bbox sz.W sz.H rnd.lam rnd.cy).x2 ∧
            (rand_bbox sz.W sz.H rnd.lam rnd.cy).y1 ≤ y ∧
            y < (rand_bbox sz.W sz.H rnd.lam rnd.cy).y2) →
          (closure sz beta cutmix_prob r rnd model criterion inputs labels).2 n c x y
            = inputs n c x y) ∧
      (closure sz beta cutmix_prob r rnd model criterion inputs labels).1
        = criterion
              (model (applyCutmix rnd.perm (rand_bbox sz.W sz.H rnd.lam rnd.cy) inputs))
              labels
            * recomputeLam sz.W sz.H (rand_bbox sz.W sz.H rnd.lam rnd.cy)
          + criterion
              (model (applyCutmix rnd.perm (rand_bbox sz.W sz.H rnd.lam rnd.cy) inputs))
              (fun n => labels (rnd.perm n))
            * (1 - recomputeLam sz.W sz.H (rand_bbox sz.W sz.H rnd.lam rnd.cy))) ∧
    (¬cutmixTriggered beta cutmix_prob r →
      closure sz beta cutmix_prob r rnd model criterion inputs labels
        = (criterion (model inputs) labels, inputs)) := by
  constructor
  · intro htrig
    unfold closure
    rw [if_pos htrig]
    refine ⟨rfl, ?_, ?_, rfl⟩
    · intro n c x y hx1 hx2 hy1 hy2
      show applyCutmix rnd.perm (rand_bbox sz.W sz.H rnd.lam rnd.cy) inputs n c x y
        = inputs (rnd.perm n) c x y
      unfold applyCutmix
      rw [if_pos ⟨hx1, hx2, hy1, hy2⟩]
    · intro n c x y hout
      show applyCutmix rnd.perm (rand_bbox sz.W sz.H rnd.lam rnd.cy) inputs n c x y
        = inputs n c x y
      unfold applyCutmix
      rw [if_neg hout]
  · intro hnot
    unfold closure
    rw [if_neg hnot]

/-- C1 witness: the theorem applied at a triggering configuration
(`beta = 1`, `cutmix_prob = 1`, `r = 0`) on concrete fixtures. -/
theorem cutmix_closure_spec_witness :
    cutmixTriggered 1 1 0 ∧
    ((closure testSize 1 1 0 testRnd testModel testCriterion testBatch testLabels).2
        = applyCutmix testRnd.perm
            (rand_bbox testSize.W testSize.H testRnd.lam testRnd.cy) testBatch ∧
      (∀ n c x y : ℕ,
          (rand_bbox testSize.W testSize.H testRnd.lam testRnd.cy).x1 ≤ x →
          x < (rand_bbox testSize.W testSize.H testRnd.lam testRnd.cy).x2 →
          (rand_bbox testSize.W testSize.H testRnd.lam testRnd.cy).y1 ≤ y →
          y < (rand_bbox testSize.W testSize.H testRnd.lam testRnd.cy).y2 →
          (closure testSize 1 1 0 testRnd testModel testCriterion testBatch testLabels).2
              n c x y
            = testBatch (testRnd.perm n) c x y) ∧
      (∀ n c x y : ℕ,
          ¬((rand_bbox testSize.W testSize.H testRnd.lam testRnd.cy).x1 ≤ x ∧
            x < (rand_bbox testSize.W testSize.H testRnd.lam testRnd.cy).x2 ∧
            (rand_bbox testSize.W testSize.H testRnd.lam testRnd.cy).y1 ≤ y ∧
            y < (rand_bbox testSize.W testSize.H testRnd.lam testRnd.cy).y2) →
          (closure testSize 1 1 0 testRnd testModel testCriterion testBatch testLabels).2
              n c x y
            = testBatch n c x y) ∧
      (closure testSize 1 1 0 testRnd testModel testCriterion testBatch testLabels).1
        = testCriterion
              (testModel (applyCutmix testRnd.perm
                (rand_bbox testSize.W testSize.H testRnd.lam testRnd.cy) testBatch))
              testLabels
            * recomputeLam testSize.W testSize.H
                (rand_bbox testSize.W testSize.H testRnd.lam testRnd.cy)
          + testCriterion
              (testModel (applyCutmix testRnd.perm
                (rand_bbox testSize.W testSize.H testRnd.lam testRnd.cy) testBatch))
              (fun n => testLabels (testRnd.perm n))
            * (1 - recomputeLam testSize.W testSize.H
                (rand_bbox testSize.W testSize.H testRnd.lam testRnd.cy))) :=
  ⟨by decide,
    (cutmix_closure_spec testSize 1 1 0 testRnd testModel testCriterion testBatch
      testLabels).1 (by decide)⟩

/-- C3: for every batch and every random draw `r ∈ [0, 1)`, if `beta = 0` or
`cutmix_prob = 0`, the loss produced by the compositor is exactly the unmixed
loss `criterion(model(inputs), labels)` and the batch tensor is not
modified. -/
theorem no_cutmix_identity {α : Type} (sz : Size) (beta cutmix_prob r : ℚ)
    (rnd : MixRand) (model : Batch → α) (criterion : α → Labels → ℚ)
    (inputs : Batch) (labels : Labels)
    (hzero : beta = 0 ∨ cutmix_prob = 0) (hr : 0 ≤ r) :
    closure sz beta cutmix_prob r rnd model criterion inputs labels
      = (criterion (model inputs) labels, inputs) := by
  have hnot : ¬cutmixTriggered beta cutmix_prob r := by
    rintro ⟨hb, hrr⟩
    rcases hzero with h | h
    · rw [h] at hb
      exact lt_irrefl 0 hb
    · rw [h] at hrr
      exact absurd hrr (not_lt.mpr hr)
  unfold closure
  rw [if_neg hnot]

/-- C3 witness: the theorem applied at `beta = 0`, `cutmix_prob = 0`,
`r = 0` on concrete fixtures. -/
theorem no_cutmix_identity_witness :
    ((0 : ℚ) = 0 ∨ (0 : ℚ) = 0) ∧ (0 : ℚ) ≤ 0 ∧
    closure testSize 0 0 0 testRnd testModel testCriterion testBatch testLabels
      = (testCriterion (testModel testBatch) testLabels, testBatch) :=
  ⟨Or.inl rfl, le_refl 0,
    no_cutmix_identity testSize 0 0 0 testRnd testModel testCriterion testBatch
      testLabels (Or.inl rfl) (le_refl 0)⟩

/-- C2: when the optimizer is SAM, each batch is processed as phase-A
forward+backward, `first_step(zero_grad=True)`, a second full
forward+backward through the loss closure, and `second_step(zero_grad=True)`;
otherwise a single phase-A forward+backward followed by one base optimizer
step, with `first_step`/`second_step` never invoked. -/
theorem sam_step_protocol :
    batchTrace true
      = [TrainEvent.zeroGrad, TrainEvent.closureCall, TrainEvent.backward,
          TrainEvent.firstStep true, TrainEvent.closureCall, TrainEvent.backward,
          TrainEvent.secondStep true] ∧
    batchTrace false
      = [TrainEvent.zeroGrad, TrainEvent.closureCall, TrainEvent.backward,
          TrainEvent.baseStep] ∧
    (∀ z : Bool, TrainEvent.firstStep z ∉ batchTrace false) ∧
    (∀ z : Bool, TrainEvent.secondStep z ∉ batchTrace false) ∧
    (batchTrace false).count TrainEvent.baseStep = 1 ∧
    (batchTrace false).count TrainEvent.closureCall = 1 ∧
    (batchTrace false).count TrainEvent.backward = 1 ∧
    (batchTrace true).count TrainEvent.baseStep = 0 := by
  decide

/-- The batch tensor after the mixed branch of one closure invocation:
the in-place CutMix overwrite with that invocation's box and partner
permutation. -/
def mixedBatch (sz : Size) (rnd : MixRand) (inputs : Batch) : Batch :=
  applyCutmix rnd.perm (rand_bbox sz.W sz.H rnd.lam rnd.cy) inputs

/-- The loss returned by the mixed branch of one closure invocation. -/
def mixedLoss {α : Type} (sz : Size) (rnd : MixRand) (model : Batch → α)
    (criterion : α → Labels → ℚ) (inputs : Batch) (labels : Labels) : ℚ :=
  criterion (model (mixedBatch sz rnd inputs)) labels
      * recomputeLam sz.W sz.H (rand_bbox sz.W sz.H rnd.lam rnd.cy)
    + criterion (model (mixedBatch sz rnd inputs)) (fun n => labels (rnd.perm n))
      * (1 - recomputeLam sz.W sz.H (rand_bbox sz.W sz.H rnd.lam rnd.cy))

/-- C9: the gating draw `r` is taken once per batch, before the closure is
defined, so under SAM the phase-A and phase-B closure invocations always take
the same mix-versus-no-mix branch, while the Beta sample, the partner
permutation and the box are fresh (`rnd1` versus `rnd2`) on the second
invocation. -/
theorem sam_branch_coherence {α : Type} (sz : Size) (beta cutmix_prob r : ℚ)
    (rnd1 rnd2 : MixRand) (model : Batch → α) (criterion : α → Labels → ℚ)
    (inputs : Batch) (labels : Labels) :
    (cutmixTriggered beta cutmix_prob r →
      (trainBatchSAM sz beta cutmix_prob r rnd1 rnd2 model criterion inputs labels).lossA
          = mixedLoss sz rnd1 model criterion inputs labels ∧
      (trainBatchSAM sz beta cutmix_prob r rnd1 rnd2 model criterion inputs labels).lossB
          = mixedLoss sz rnd2 model criterion (mixedBatch sz rnd1 inputs) labels) ∧
    (¬cutmixTriggered beta cutmix_prob r →
      (trainBatchSAM sz beta cutmix_prob r rnd1 rnd2 model criterion inputs labels).lossA
          = criterion (model inputs) labels ∧
      (trainBatchSAM sz beta cutmix_prob r rnd1 rnd2 model criterion inputs labels).lossB
          = criterion (model inputs) labels ∧
      (trainBatchSAM sz beta cutmix_prob r rnd1 rnd2 model criterion inputs labels).afterA
          = inputs ∧
      (trainBatchSAM sz beta cutmix_prob r rnd1 rnd2 model criterion inputs labels).afterB
          = inputs) := by
  constructor
  · intro h
    unfold trainBatchSAM closure mixedLoss mixedBatch
    simp only [if_pos h]
    exact ⟨trivial, trivial⟩
  · intro h
    unfold trainBatchSAM closure
    simp only [if_neg h]
    exact ⟨trivial, trivial, trivial, trivial⟩

/-- C9 witness: the theorem applied on concrete fixtures with
`beta = cutmix_prob = r = 0` (the no-mix branch in both phases). -/
theorem sam_branch_coherence_witness :
    ¬cutmixTriggered 0 0 0 ∧
    ((trainBatchSAM testSize 0 0 0 testRnd testRndB testModel testCriterion
        testBatch testLabels).lossA
        = testCriterion (testModel testBatch) testLabels ∧
      (trainBatchSAM testSize 0 0 0 testRnd testRndB testModel testCriterion
        testBatch testLabels).lossB
        = testCriterion (testModel testBatch) testLabels ∧
      (trainBatchSAM testSize 0 0 0 testRnd testRndB testModel testCriterion
        testBatch testLabels).afterA = testBatch ∧
      (trainBatchSAM testSize 0 0 0 testRnd testRndB testModel testCriterion
        testBatch testLabels).afterB = testBatch) :=
  ⟨by decide,
    (sam_branch_coherence testSize 0 0 0 testRnd testRndB testModel testCriterion
      testBatch testLabels).2 (by decide)⟩

/-- C10: the CutMix overwrite mutates the batch tensor in place and the
mutation persists across closure invocations: under SAM with CutMix
triggered, phase B runs on the batch already mixed by phase A and applies a
second, independent mix on top of it; the original pixels are not restored
between the phases. -/
theorem sam_inplace_persistence {α : Type} (sz : Size) (beta cutmix_prob r : ℚ)
    (rnd1 rnd2 : MixRand) (model : Batch → α) (criterion : α → Labels → ℚ)
    (inputs : Batch) (labels : Labels)
    (htrig : cutmixTriggered beta cutmix_prob r) :
    (trainBatchSAM sz beta cutmix_prob r rnd1 rnd2 model criterion inputs labels).afterA
        = mixedBatch sz rnd1 inputs ∧
    (trainBatchSAM sz beta cutmix_prob r rnd1 rnd2 model criterion inputs labels).afterB
        = mixedBatch sz rnd2 (mixedBatch sz rnd1 inputs) ∧
    (trainBatchSAM sz beta cutmix_prob r rnd1 rnd2 model criterion inputs labels).lossB
        = mixedLoss sz rnd2 model criterion (mixedBatch sz rnd1 inputs) labels := by
  unfold trainBatchSAM closure mixedLoss mixedBatch
  simp only [if_pos htrig]
  exact ⟨trivial, trivial, trivial⟩

/-- C10 witness: the theorem applied on concrete fixtures at a triggering
configuration (`beta = 1`, `cutmix_prob = 1`, `r = 0`). -/
theorem sam_inplace_persistence_witness :
    cutmixTriggered 1 1 0 ∧
    ((trainBatchSAM testSize 1 1 0 testRnd testRndB testModel testCriterion
        testBatch testLabels).afterA = mixedBatch testSize testRnd testBatch ∧
      (trainBatchSAM testSize 1 1 0 testRnd testRndB testModel testCriterion
        testBatch testLabels).afterB
        = mixedBatch testSize testRndB (mixedBatch testSize testRnd testBatch) ∧
      (trainBatchSAM testSize 1 1 0 testRnd testRndB testModel testCriterion
        testBatch testLabels).lossB
        = mixedLoss testSize testRndB testModel testCriterion
            (mixedBatch testSize testRnd testBatch) testLabels) :=
  ⟨by decide,
    sam_inplace_persistence testSize 1 1 0 testRnd testRndB testModel testCriterion
      testBatch testLabels (by decide)⟩

lemma checkpointRun_lastEpochs (best : ℚ) (e : ℕ) (f1s : List ℚ) :
    (checkpointRun best e f1s).lastEpochs = List.range' e f1s.length := by
  induction f1s generalizing best e with
  | nil => simp [checkpointRun]
  | cons f rest ih =>
    simp only [checkpointRun, List.length_cons, List.range'_succ]
    rw [ih]

lemma checkpointRun_conf_eq_best (best : ℚ) (e : ℕ) (f1s : List ℚ) :
    (checkpointRun best e f1s).confEpochs = (checkpointRun best e f1s).bestEpochs := by
  induction f1s generalizing best e with
  | nil => simp [checkpointRun]
  | cons f rest ih =>
    cases hsb : savesBest best f with
    | false => simp only [checkpointRun, hsb, if_neg Bool.false_ne_true]; rw [ih]
    | true => simp only [checkpointRun, hsb, if_pos rfl]; rw [ih]

/-- C6: at every epoch, the "last" checkpoint is persisted unconditionally,
while the "best" checkpoint (together with the confusion-matrix artifact) is
persisted if and only if the epoch's F1 strictly exceeds the running best F1;
for the F1 sequence `[0.5, 0.3, 0.7, 0.6]` starting from best F1 `= 0`,
"best" is written only at epochs 0 and 2 and "last" at every epoch. -/
theorem checkpoint_policy_spec :
    (∀ best f1 : ℚ, savesBest best f1 = true ↔ best < f1) ∧
    (∀ (best : ℚ) (e : ℕ) (f1s : List ℚ),
      (checkpointRun best e f1s).lastEpochs = List.range' e f1s.length) ∧
    (∀ (best : ℚ) (e : ℕ) (f1s : List ℚ),
      (checkpointRun best e f1s).confEpochs = (checkpointRun best e f1s).bestEpochs) ∧
    (∀ (best f1 : ℚ) (e : ℕ) (rest : List ℚ),
      (checkpointRun best e (f1 :: rest)).bestEpochs
        = (if best < f1 then [e] else [])
            ++ (checkpointRun (if best < f1 then f1 else best) (e + 1) rest).bestEpochs) ∧
    (checkpointRun 0 0 [1 / 2, 3 / 10, 7 / 10, 3 / 5]).bestEpochs = [0, 2] ∧
    (checkpointRun 0 0 [1 / 2, 3 / 10, 7 / 10, 3 / 5]).confEpochs = [0, 2] ∧
    (checkpointRun 0 0 [1 / 2, 3 / 10, 7 / 10, 3 / 5]).lastEpochs = [0, 1, 2, 3] := by
  refine ⟨?_, checkpointRun_lastEpochs, checkpointRun_conf_eq_best, ?_, ?_, ?_, ?_⟩
  · intro best f1
    simp [savesBest]
  · intro best f1 e rest
    by_cases h : best < f1
    · simp [checkpointRun, savesBest, h]
    · simp [checkpointRun, savesBest, h]
  · norm_num [checkpointRun, savesBest]
  · norm_num [checkpointRun, savesBest]
  · norm_num [checkpointRun, savesBest]

/-- C6 witness: the per-step gate evaluated through the theorem at
`best = 0`, `f1 = 1`. -/
theorem checkpoint_policy_spec_witness :
    savesBest 0 1 = true ↔ (0 : ℚ) < 1 :=
  checkpoint_policy_spec.1 0 1

lemma epochUpdate_best_val_loss (s : BestState) (vl f1 : ℚ) :
    (epochUpdate s vl f1).best_val_loss = min s.best_val_loss (vl : WithTop ℚ) := by
  unfold epochUpdate
  by_cases h : s.best_f1 < f1
  · rw [if_pos h]
  · rw [if_neg h]

lemma epochUpdate_best_f1_le (s : BestState) (vl f1 : ℚ) :
    s.best_f1 ≤ (epochUpdate s vl f1).best_f1 := by
  unfold epochUpdate
  by_cases h : s.best_f1 < f1
  · rw [if_pos h]
    exact le_of_lt h
  · rw [if_neg h]

lemma runBestState_mono (s : BestState) (ms : List (ℚ × ℚ)) :
    s.best_f1 ≤ (runBestState s ms).best_f1 ∧
    (runBestState s ms).best_val_loss ≤ s.best_val_loss := by
  induction ms generalizing s with
  | nil => exact ⟨le_refl _, le_refl _⟩
  | cons m rest ih =>
    refine ⟨le_trans (epochUpdate_best_f1_le s m.1 m.2) ?_,
      le_trans ?_ (le_of_eq_of_le (epochUpdate_best_val_loss s m.1 m.2) (min_le_left _ _))⟩
    · exact (ih (epochUpdate s m.1 m.2)).1
    · exact (ih (epochUpdate s m.1 m.2)).2

/-- C7: the orchestrator best state is initialized to
`best_val_loss = +∞` and `best_f1 = 0`; per epoch `best_val_loss` is updated
via `min` with the epoch's validation loss; across every epoch sequence
`best_f1` never decreases and `best_val_loss` is monotonically
non-increasing; and `best_val_loss` never gates the checkpoint decision
(states agreeing on `best_f1` decide identically). -/
theorem best_state_spec :
    initBestState.best_val_loss = ⊤ ∧
    initBestState.best_f1 = 0 ∧
    (∀ (s : BestState) (vl f1 : ℚ),
      (epochUpdate s vl f1).best_val_loss = min s.best_val_loss (vl : WithTop ℚ) ∧
      s.best_f1 ≤ (epochUpdate s vl f1).best_f1) ∧
    (∀ (s : BestState) (ms : List (ℚ × ℚ)),
      s.best_f1 ≤ (runBestState s ms).best_f1 ∧
      (runBestState s ms).best_val_loss ≤ s.best_val_loss) ∧
    (∀ (s t : BestState) (f1 : ℚ), s.best_f1 = t.best_f1 →
      saveBestDecision s f1 = saveBestDecision t f1) := by
  refine ⟨rfl, rfl, ?_, runBestState_mono, ?_⟩
  · intro s vl f1
    exact ⟨epochUpdate_best_val_loss s vl f1, epochUpdate_best_f1_le s vl f1⟩
  · intro s t f1 h
    unfold saveBestDecision savesBest
    rw [h]

/-- C7 witness: monotonicity through one concrete epoch
(`val_loss = 3`, `epoch_f1 = 1`) from the initial state, via the theorem. -/
theorem best_state_spec_witness :
    initBestState.best_f1 ≤ (runBestState initBestState [(3, 1)]).best_f1 ∧
    (runBestState initBestState [(3, 1)]).best_val_loss
      ≤ initBestState.best_val_loss :=
  best_state_spec.2.2.2.1 initBestState [(3, 1)]

/-- C2 witness: `first_step` never appears in the non-SAM trace, via the
theorem. -/
theorem sam_step_protocol_witness :
    TrainEvent.firstStep true ∉ batchTrace false :=
  sam_step_protocol.2.2.1 true

lemma valLoop_lossItems (criterion : List (List ℚ) → List ℕ → ℚ)
    (f1M : List ℕ → List ℕ → ℚ) (acc : ValAccum) (i : ℕ) (bs : List ValBatch) :
    (valLoop criterion f1M acc i bs).lossItems
      = acc.lossItems ++ bs.map (fun b => criterion b.outs b.labels) := by
  induction bs generalizing acc i with
  | nil => simp [valLoop]
  | cons b rest ih =>
    simp only [valLoop, List.map_cons]
    rw [ih]
    simp [valStep, List.append_assoc]

lemma valLoop_accItems (criterion : List (List ℚ) → List ℕ → ℚ)
    (f1M : List ℕ → List ℕ → ℚ) (acc : ValAccum) (i : ℕ) (bs : List ValBatch) :
    (valLoop criterion f1M acc i bs).accItems
      = acc.accItems ++ bs.map (fun b => matchCount b.labels (b.outs.map argmaxIdx)) := by
  induction bs generalizing acc i with
  | nil => simp [valLoop]
  | cons b rest ih =>
    simp only [valLoop, List.map_cons]
    rw [ih]
    simp [valStep, List.append_assoc]

lemma valLoop_f1Sum (criterion : List (List ℚ) → List ℕ → ℚ)
    (f1M : List ℕ → List ℕ → ℚ) (acc : ValAccum) (i : ℕ) (bs : List ValBatch) :
    (valLoop criterion f1M acc i bs).f1Sum
      = acc.f1Sum + (bs.map (fun b => f1M b.labels (b.outs.map argmaxIdx))).sum := by
  induction bs generalizing acc i with
  | nil => simp [valLoop]
  | cons b rest ih =>
    simp only [valLoop, List.map_cons, List.sum_cons]
    rw [ih]
    simp [valStep]
    ring

lemma valLoop_figure_some (criterion : List (List ℚ) → List ℕ → ℚ)
    (f1M : List ℕ → List ℕ → ℚ) (acc : ValAccum) (i j : ℕ) (bs : List ValBatch)
    (h : acc.figure = some j) :
    (valLoop criterion f1M acc i bs).figure = some j := by
  induction bs generalizing acc i with
  | nil => simpa [valLoop] using h
  | cons b rest ih =>
    simp only [valLoop]
    exact ih _ _ (by simp [valStep, h])

lemma valLoop_figure_none (criterion : List (List ℚ) → List ℕ → ℚ)
    (f1M : List ℕ → List ℕ → ℚ) (acc : ValAccum) (i : ℕ) (bs : List ValBatch)
    (hacc : acc.figure = none) (hbs : bs ≠ []) :
    (valLoop criterion f1M acc i bs).figure = some i := by
  cases bs with
  | nil => exact absurd rfl hbs
  | cons b rest =>
    simp only [valLoop]
    exact valLoop_figure_some criterion f1M _ _ i rest (by simp [valStep, hacc])

/-- C8: the validator returns mean loss equal to the sum of per-batch losses
divided by the batch count, accuracy equal to the total count of argmax
predictions matching true labels divided by the validation-set size, mean F1
equal to the sum of per-batch macro-F1 scores divided by the batch count, and
the visualization figure built from the first batch only. -/
theorem validate_spec (criterion : List (List ℚ) → List ℕ → ℚ)
    (f1M : List ℕ → List ℕ → ℚ) (batches : List ValBatch) (valSetSize : ℕ)
    (hne : batches ≠ []) :
    (validate criterion f1M batches valSetSize).val_loss
        = (batches.map (fun b => criterion b.outs b.labels)).sum
            / (batches.length : ℚ) ∧
    (validate criterion f1M batches valSetSize).val_acc
        = (((batches.map (fun b => matchCount b.labels (b.outs.map argmaxIdx))).sum : ℕ) : ℚ)
            / (valSetSize : ℚ) ∧
    (validate criterion f1M batches valSetSize).epoch_f1
        = (batches.map (fun b => f1M b.labels (b.outs.map argmaxIdx))).sum
            / (batches.length : ℚ) ∧
    (validate criterion f1M batches valSetSize).figure = some 0 := by
  refine ⟨?_, ?_, ?_, ?_⟩
  · show (valLoop criterion f1M ⟨[], [], 0, [], [], none⟩ 0 batches).lossItems.sum
        / (batches.length : ℚ) = _
    rw [valLoop_lossItems]
    simp
  · show ((valLoop criterion f1M ⟨[], [], 0, [], [], none⟩ 0 batches).accItems.sum : ℚ)
        / (valSetSize : ℚ) = _
    rw [valLoop_accItems]
    simp
  · show (valLoop criterion f1M ⟨[], [], 0, [], [], none⟩ 0 batches).f1Sum
        / (batches.length : ℚ) = _
    rw [valLoop_f1Sum]
    simp
  · exact valLoop_figure_none criterion f1M _ 0 batches rfl hne

/-- A concrete validation batch: two samples with labels `[0, 1]` and logit
rows `[[1, 0], [0, 1]]`. -/
def testValBatch : ValBatch := ⟨[0, 1], [[1, 0], [0, 1]]⟩

/-- A concrete loss collaborator for validation. -/
def testValCrit : List (List ℚ) → List ℕ → ℚ := fun _ _ => 2

/-- A concrete macro-F1 collaborator. -/
def testF1 : List ℕ → List ℕ → ℚ := fun _ _ => 1

/-- C8 witness: the theorem applied to the one-batch validation set
`[testValBatch]` with `valSetSize = 2`. -/
theorem validate_spec_witness :
    [testValBatch] ≠ [] ∧
    ((validate testValCrit testF1 [testValBatch] 2).val_loss
        = ([testValBatch].map (fun b => testValCrit b.outs b.labels)).sum
            / (([testValBatch].length : ℕ) : ℚ) ∧
      (validate testValCrit testF1 [testValBatch] 2).val_acc
        = ((([testValBatch].map
              (fun b => matchCount b.labels (b.outs.map argmaxIdx))).sum : ℕ) : ℚ)
            / ((2 : ℕ) : ℚ) ∧
      (validate testValCrit testF1 [testValBatch] 2).epoch_f1
        = ([testValBatch].map (fun b => testF1 b.labels (b.outs.map argmaxIdx))).sum
            / (([testValBatch].length : ℕ) : ℚ) ∧
      (validate testValCrit testF1 [testValBatch] 2).figure = some 0) :=
  ⟨List.cons_ne_nil _ _,
    validate_spec testValCrit testF1 [testValBatch] 2 (List.cons_ne_nil _ _)⟩

end MaskTrain
